import Mathlib

/-!
Shallow embedding of `src/main.cpp` from the n-body-plplot repository:
a gravitational 2D N-body simulator with brute-force pairwise force
accumulation and forward-Euler integration.

C++ `double` arithmetic is idealised as real arithmetic (`ℝ`); machine
integers (`int`) as `ℤ`.  Plotting, printing and sleeping have no effect
on the simulation state and are omitted.
-/

namespace NBody

/-- `double const C = 1.01;` — the gravitational constant (main.cpp:32). -/
def C : ℝ := 1.01

/-- The `body` class (main.cpp:35-58): mass `m`, position `(x, y)`,
velocity `(v, w)`, accumulated force `(f, g)`.  The random initialisers
draw mass from an offset Weibull distribution (hence positive), position
and velocity from normal distributions; here a body is an arbitrary record
and initial-value facts are stated as hypotheses where needed. -/
structure body where
  m : ℝ
  x : ℝ
  y : ℝ
  v : ℝ
  w : ℝ
  f : ℝ
  g : ℝ

instance : Inhabited body := ⟨⟨1, 0, 0, 0, 0, 0, 0⟩⟩

/-- `bodyd` in `fsum` (main.cpp:83): Euclidean separation
`sqrt(xvec*xvec + yvec*yvec)` of the two bodies. -/
noncomputable def bodyd (computed affecting : body) : ℝ :=
  Real.sqrt ((affecting.x - computed.x) * (affecting.x - computed.x) +
             (affecting.y - computed.y) * (affecting.y - computed.y))

/-- `fscal` in `fsum` (main.cpp:84): scalar part of the force,
`C * computed.m * affecting.m / (bodyd * bodyd * bodyd)`. -/
noncomputable def fscal (computed affecting : body) : ℝ :=
  C * computed.m * affecting.m /
    (bodyd computed affecting * bodyd computed affecting * bodyd computed affecting)

/-- `fscal * xvec` (main.cpp:85): the x-component of the pairwise force
on `computed` due to `affecting`. -/
noncomputable def contribF (computed affecting : body) : ℝ :=
  fscal computed affecting * (affecting.x - computed.x)

/-- `fscal * yvec` (main.cpp:86): the y-component of the pairwise force
on `computed` due to `affecting`. -/
noncomputable def contribG (computed affecting : body) : ℝ :=
  fscal computed affecting * (affecting.y - computed.y)

/-- `fsum` (main.cpp:80-88): add the pairwise gravitational force on
`computed` due to `affecting` into `computed`'s force accumulator
`(f, g)`; all other fields are returned unchanged (the C++ function takes
and returns the body by value). -/
noncomputable def fsum (computed affecting : body) : body :=
  { computed with
      f := computed.f + contribF computed affecting,
      g := computed.g + contribG computed affecting }

/-- `integrate` (main.cpp:91-97): forward-Euler step.  Velocity is updated
first from the accumulated force, then position is updated using the
NEW velocity. -/
noncomputable def integrate (computed : body) (dt : ℝ) : body :=
  let v := computed.v + dt * computed.f / computed.m
  let w := computed.w + dt * computed.g / computed.m
  { computed with
      v := v
      w := w
      x := computed.x + dt * v
      y := computed.y + dt * w }

/-- `bodies[i].f = 0.0; bodies[i].g = 0.0;` (main.cpp:166-167): reset the
force accumulator at the start of a body's per-timestep accumulation. -/
def resetForce (b : body) : body := { b with f := 0, g := 0 }

/-- The inner-loop index set of the force accumulation (main.cpp:168-171):
all `j` in `[0, n)` with `j ≠ i` (the `if (j == i) continue;` skip),
in loop order. -/
def othersIdx (n i : ℕ) : List ℕ := (List.range n).filter (fun j => j ≠ i)

/-- The inner loop body (main.cpp:168-171): starting from the
force-reset body `i`, fold `bodies[i] = fsum(bodies[i], bodies[j])`
over the other bodies. -/
noncomputable def accumulate (b : body) (others : List body) : body :=
  others.foldl fsum b

/-- One iteration of the outer force loop (main.cpp:165-172) at index
`i`: reset body `i`'s force, accumulate the pairwise contributions of all
`j ≠ i` read from the CURRENT array `cur` (exactly as the C++ loop reads
the partially-updated `bodies` array), and write the result back. -/
noncomputable def forceStep (cur : List body) (i : ℕ) : List body :=
  cur.set i (accumulate (resetForce (cur.getD i default))
    ((othersIdx cur.length i).map (fun j => cur.getD j default)))

/-- The force-accumulation phase of one timestep (main.cpp:165-172):
`forceStep` for each `i` in order. -/
noncomputable def forcePass (bs : List body) : List body :=
  (List.range bs.length).foldl forceStep bs

/-- The integration phase of one timestep (main.cpp:175-179):
`bodies[i] = integrate(bodies[i], delta_t)` for every body.  `delta_t`
is an `int` in the source and is converted to `double` at the call. -/
noncomputable def integratePhase (bs : List body) (delta_t : ℤ) : List body :=
  bs.map (fun b => integrate b (delta_t : ℝ))

/-- One iteration of the simulation loop (main.cpp:164-185):
force accumulation for all bodies, then integration for all bodies. -/
noncomputable def simStep (bs : List body) (delta_t : ℤ) : List body :=
  integratePhase (forcePass bs) delta_t

/-- `n` iterations of the simulation loop (main.cpp:164). -/
noncomputable def run (bs : List body) (delta_t : ℤ) : ℕ → List body
  | 0 => bs
  | n + 1 => simStep (run bs delta_t n) delta_t

/-- Number of directional pairwise force evaluations (`fsum` calls) one
timestep performs for a population of size `n`: one per element of each
inner-loop index list of `forcePass`. -/
def forceEvalCount (n : ℕ) : ℕ :=
  ((List.range n).map (fun i => (othersIdx n i).length)).sum

/-! ### Command-line argument handling (main.cpp:61-77, 110-133) -/

/-- Numeric value of a decimal digit character. -/
def digitVal (c : Char) : ℕ := c.toNat - 48

/-- Maximal leading run of decimal digits. -/
def takeDigits (cs : List Char) : List Char := cs.takeWhile Char.isDigit

/-- Value of a digit string, most significant digit first. -/
def natFromDigits (ds : List Char) : ℕ :=
  ds.foldl (fun a c => 10 * a + digitVal c) 0

/-- Parse the maximal digit prefix as `std::stoi` does after an optional
sign: `none` models the `std::invalid_argument` throw (no digits) or the
`std::out_of_range` throw (value outside `int`); otherwise the value and
the number of characters consumed (`pos`). -/
def stoiDigits (cs : List Char) (neg : Bool) (offset : ℕ) : Option (ℤ × ℕ) :=
  let ds := takeDigits cs
  if ds = [] then none
  else
    let n := natFromDigits ds
    if neg then
      if n > 2 ^ 31 then none else some (-(n : ℤ), offset + ds.length)
    else
      if n > 2 ^ 31 - 1 then none else some ((n : ℤ), offset + ds.length)

/-- Model of `std::stoi(arg, &pos)` on the strings this program receives:
optional leading sign, then a mandatory digit run; returns the parsed
`int` and the index `pos` of the first unconsumed character, or `none`
when `std::stoi` throws. -/
def stoi (s : String) : Option (ℤ × ℕ) :=
  match s.data with
  | [] => none
  | c :: rest =>
      if c = '-' then stoiDigits rest true 1
      else if c = '+' then stoiDigits rest false 1
      else stoiDigits (c :: rest) false 0

/-- `input_verify_stoi` (main.cpp:61-77): for each argument index
`i = 1, …, argc-1`, write `stoi(arg)` into `verified[i]` when parsing
succeeds; when `std::stoi` throws, print a diagnostic and write NOTHING,
leaving whatever value `verified[i]` already held (in C++ this slot of
the stack array `input` is uninitialised memory).  `verified` models the
initial contents of that array. -/
def input_verify_stoi (vec : List String) (verified : List ℤ) : List ℤ :=
  (List.range' 1 (vec.length - 1)).foldl
    (fun arr i =>
      match stoi (vec.getD i "") with
      | some p => arr.set i p.1
      | none => arr)
    verified

/-- Truncation of a real value on conversion to a C++ `int`
(round toward zero). -/
def cppTruncInt (q : ℚ) : ℤ := if 0 ≤ q then ⌊q⌋ else -⌊-q⌋

/-- `int num_bodies = (argc > 1) ? input[1] : 10;` (main.cpp:131). -/
def num_bodies (argc : ℕ) (input : List ℤ) : ℤ :=
  if argc > 1 then input.getD 1 0 else 10

/-- `int iterations = (argc > 2) ? input[2] : 100;` (main.cpp:132). -/
def iterations (argc : ℕ) (input : List ℤ) : ℤ :=
  if argc > 2 then input.getD 2 0 else 100

/-- `int delta_t = (argc > 3) ? input[3] : 1.0;` (main.cpp:133): the
timestep is declared `int`; the default `1.0` is a `double` truncated on
assignment. -/
def delta_t (argc : ℕ) (input : List ℤ) : ℤ :=
  if argc > 3 then input.getD 3 0 else cppTruncInt 1.0

/-- Exact rational value of the decimal numeral
`intDs ++ "." ++ fracDs` (all characters digits). -/
def decimalValue (intDs fracDs : List Char) : ℚ :=
  (natFromDigits intDs : ℚ) + (natFromDigits fracDs : ℚ) / 10 ^ fracDs.length

/-- Body 0 of the spec's two-body scenario: mass 1, position `(0,0)`,
zero velocity, zero accumulated force. -/
def B0 : body := ⟨1, 0, 0, 0, 0, 0, 0⟩

/-- Body 1 of the spec's two-body scenario: mass 1, position `(10,0)`,
zero velocity, zero accumulated force. -/
def B1 : body := ⟨1, 10, 0, 0, 0, 0, 0⟩

/-- A body at position `(5,5)` with mass 1; two copies of it form the
degenerate coincident pair of the spec's edge-case policy. -/
def Dcoin : body := ⟨1, 5, 5, 0, 0, 0, 0⟩

/-! ### Basic lemmas about the force accumulator and the integrator -/

/-- The fields of a body that force accumulation never writes:
mass, position and velocity. -/
def kin (b : body) : ℝ × ℝ × ℝ × ℝ × ℝ := (b.m, b.x, b.y, b.v, b.w)

theorem fsum_f (b a : body) : (fsum b a).f = b.f + contribF b a := rfl

theorem fsum_g (b a : body) : (fsum b a).g = b.g + contribG b a := rfl

theorem kin_fsum (b a : body) : kin (fsum b a) = kin b := rfl

theorem kin_resetForce (b : body) : kin (resetForce b) = kin b := rfl

theorem resetForce_f (b : body) : (resetForce b).f = 0 := rfl

theorem resetForce_g (b : body) : (resetForce b).g = 0 := rfl

theorem resetForce_congr {b b' : body} (h : kin b = kin b') :
    resetForce b = resetForce b' := by
  cases b; cases b'
  simp only [kin, Prod.mk.injEq] at h
  obtain ⟨h1, h2, h3, h4, h5⟩ := h
  subst h1 h2 h3 h4 h5
  rfl

theorem contribF_congr {b b' a a' : body} (hb : kin b = kin b')
    (ha : kin a = kin a') : contribF b a = contribF b' a' := by
  cases b; cases b'; cases a; cases a'
  simp only [kin, Prod.mk.injEq] at hb ha
  obtain ⟨h1, h2, h3, h4, h5⟩ := hb
  subst h1 h2 h3 h4 h5
  obtain ⟨h1, h2, h3, h4, h5⟩ := ha
  subst h1 h2 h3 h4 h5
  rfl

theorem contribG_congr {b b' a a' : body} (hb : kin b = kin b')
    (ha : kin a = kin a') : contribG b a = contribG b' a' := by
  cases b; cases b'; cases a; cases a'
  simp only [kin, Prod.mk.injEq] at hb ha
  obtain ⟨h1, h2, h3, h4, h5⟩ := hb
  subst h1 h2 h3 h4 h5
  obtain ⟨h1, h2, h3, h4, h5⟩ := ha
  subst h1 h2 h3 h4 h5
  rfl

theorem fsum_congr {b b' a a' : body} (hb : b = b') (ha : kin a = kin a') :
    fsum b a = fsum b' a' := by
  subst hb
  cases b; cases a; cases a'
  simp only [kin, Prod.mk.injEq] at ha
  obtain ⟨h1, h2, h3, h4, h5⟩ := ha
  subst h1 h2 h3 h4 h5
  rfl

theorem accumulate_nil (b : body) : accumulate b [] = b := rfl

theorem accumulate_cons (b a : body) (l : List body) :
    accumulate b (a :: l) = accumulate (fsum b a) l := rfl

theorem kin_accumulate (l : List body) : ∀ b, kin (accumulate b l) = kin b := by
  induction l with
  | nil => intro b; rfl
  | cons a l ih => intro b; rw [accumulate_cons, ih, kin_fsum]

theorem accumulate_congr {l l' : List body} (h : l.map kin = l'.map kin) :
    ∀ b, accumulate b l = accumulate b l' := by
  induction l generalizing l' with
  | nil =>
    cases l' with
    | nil => intro b; rfl
    | cons a2 l2 => simp at h
  | cons a l ih =>
    cases l' with
    | nil => simp at h
    | cons a2 l2 =>
      simp only [List.map_cons, List.cons.injEq] at h
      intro b
      rw [accumulate_cons, accumulate_cons, fsum_congr rfl h.1]
      exact ih h.2 _

theorem accumulate_f (l : List body) :
    ∀ b, (accumulate b l).f = b.f + (l.map (fun a => contribF b a)).sum := by
  induction l with
  | nil => intro b; simp [accumulate_nil]
  | cons a l ih =>
    intro b
    rw [accumulate_cons, ih]
    simp only [fsum_f, List.map_cons, List.sum_cons]
    rw [show l.map (fun a2 => contribF (fsum b a) a2) = l.map (fun a2 => contribF b a2)
          from List.map_congr_left (fun a2 _ => contribF_congr (kin_fsum b a) rfl)]
    ring

theorem accumulate_g (l : List body) :
    ∀ b, (accumulate b l).g = b.g + (l.map (fun a => contribG b a)).sum := by
  induction l with
  | nil => intro b; simp [accumulate_nil]
  | cons a l ih =>
    intro b
    rw [accumulate_cons, ih]
    simp only [fsum_g, List.map_cons, List.sum_cons]
    rw [show l.map (fun a2 => contribG (fsum b a) a2) = l.map (fun a2 => contribG b a2)
          from List.map_congr_left (fun a2 _ => contribG_congr (kin_fsum b a) rfl)]
    ring

/-! ### The force pass: sequential in-place update equals the pure per-body
force computation, because `fsum` reads only mass/position of the other
body and writes only the target's force accumulator. -/

theorem forceStep_length (cur : List body) (i : ℕ) :
    (forceStep cur i).length = cur.length := by
  simp [forceStep]

theorem forceStep_getD_ne (cur : List body) (i j : ℕ) (h : j ≠ i) :
    (forceStep cur i).getD j default = cur.getD j default := by
  rw [forceStep, List.getD_eq_getElem?_getD, List.getElem?_set_ne (Ne.symm h),
    List.getD_eq_getElem?_getD]

theorem forceStep_getD_self (cur : List body) (i : ℕ) (h : i < cur.length) :
    (forceStep cur i).getD i default =
      accumulate (resetForce (cur.getD i default))
        ((othersIdx cur.length i).map (fun j => cur.getD j default)) := by
  rw [forceStep, List.getD_eq_getElem?_getD, List.getElem?_set_self h]
  rfl

theorem kin_forceStep (cur : List body) (i j : ℕ) :
    kin ((forceStep cur i).getD j default) = kin (cur.getD j default) := by
  rcases eq_or_ne j i with rfl | h
  · rw [forceStep, List.getD_eq_getElem?_getD, List.getElem?_set_self']
    cases hcur : cur[j]? with
    | none => rw [List.getD_eq_getElem?_getD, hcur]; rfl
    | some b =>
      show kin (accumulate (resetForce (cur.getD j default))
          ((othersIdx cur.length j).map (fun k => cur.getD k default)))
        = kin (cur.getD j default)
      rw [kin_accumulate, kin_resetForce]
  · rw [forceStep_getD_ne cur i j h]

theorem foldl_forceStep_length (l : List ℕ) :
    ∀ cur : List body, (l.foldl forceStep cur).length = cur.length := by
  induction l with
  | nil => intro cur; rfl
  | cons i l ih => intro cur; rw [List.foldl_cons, ih, forceStep_length]

theorem kin_foldl_forceStep (l : List ℕ) : ∀ (cur : List body) (j : ℕ),
    kin ((l.foldl forceStep cur).getD j default) = kin (cur.getD j default) := by
  induction l with
  | nil => intro cur j; rfl
  | cons i l ih => intro cur j; rw [List.foldl_cons, ih, kin_forceStep]

theorem foldl_forceStep_not_mem (l : List ℕ) : ∀ (cur : List body) (j : ℕ),
    j ∉ l → (l.foldl forceStep cur).getD j default = cur.getD j default := by
  induction l with
  | nil => intro cur j _; rfl
  | cons i l ih =>
    intro cur j hj
    rw [List.foldl_cons, ih _ _ (fun h => hj (List.mem_cons_of_mem i h)),
      forceStep_getD_ne _ _ _ (List.ne_of_not_mem_cons hj)]

theorem foldl_forceStep_getD (bs : List body) (l : List ℕ) :
    ∀ cur : List body, cur.length = bs.length →
    (∀ j, kin (cur.getD j default) = kin (bs.getD j default)) →
    l.Nodup → (∀ k ∈ l, k < bs.length) →
    ∀ i ∈ l, (l.foldl forceStep cur).getD i default =
      accumulate (resetForce (bs.getD i default))
        ((othersIdx bs.length i).map (fun j => bs.getD j default)) := by
  induction l with
  | nil => intro cur _ _ _ _ i hi; exact absurd hi (List.not_mem_nil i)
  | cons a l ih =>
    intro cur hlen hkin hnd hlt i hi
    rw [List.foldl_cons]
    have hlen' : (forceStep cur a).length = bs.length := by
      rw [forceStep_length, hlen]
    have hkin' : ∀ j, kin ((forceStep cur a).getD j default)
        = kin (bs.getD j default) :=
      fun j => (kin_forceStep cur a j).trans (hkin j)
    rcases List.mem_cons.mp hi with rfl | hmem
    · have ha : i ∉ l := (List.nodup_cons.mp hnd).1
      rw [foldl_forceStep_not_mem l _ i ha]
      have hia : i < cur.length := by
        rw [hlen]; exact hlt i (List.mem_cons_self i l)
      rw [forceStep_getD_self cur i hia, hlen, resetForce_congr (hkin i)]
      apply accumulate_congr
      rw [List.map_map, List.map_map]
      exact List.map_congr_left (fun j _ => hkin j)
    · exact ih (forceStep cur a) hlen' hkin' (List.nodup_cons.mp hnd).2
        (fun k hk => hlt k (List.mem_cons_of_mem a hk)) i hmem

theorem forcePass_length (bs : List body) : (forcePass bs).length = bs.length :=
  foldl_forceStep_length _ bs

theorem kin_forcePass (bs : List body) (j : ℕ) :
    kin ((forcePass bs).getD j default) = kin (bs.getD j default) :=
  kin_foldl_forceStep _ bs j

theorem forcePass_getD (bs : List body) (i : ℕ) (hi : i < bs.length) :
    (forcePass bs).getD i default =
      accumulate (resetForce (bs.getD i default))
        ((othersIdx bs.length i).map (fun j => bs.getD j default)) :=
  foldl_forceStep_getD bs (List.range bs.length) bs rfl (fun _ => rfl)
    (List.nodup_range _) (fun k hk => List.mem_range.mp hk) i (List.mem_range.mpr hi)

theorem forcePass_f (bs : List body) (i : ℕ) (hi : i < bs.length) :
    ((forcePass bs).getD i default).f =
      ((othersIdx bs.length i).map
        (fun j => contribF (bs.getD i default) (bs.getD j default))).sum := by
  rw [forcePass_getD bs i hi, accumulate_f, resetForce_f, zero_add, List.map_map]
  refine congrArg List.sum (List.map_congr_left ?_)
  intro j _
  exact contribF_congr (kin_resetForce _) rfl

theorem forcePass_g (bs : List body) (i : ℕ) (hi : i < bs.length) :
    ((forcePass bs).getD i default).g =
      ((othersIdx bs.length i).map
        (fun j => contribG (bs.getD i default) (bs.getD j default))).sum := by
  rw [forcePass_getD bs i hi, accumulate_g, resetForce_g, zero_add, List.map_map]
  refine congrArg List.sum (List.map_congr_left ?_)
  intro j _
  exact contribG_congr (kin_resetForce _) rfl

/-! ### Counting the inner-loop pair evaluations -/

theorem othersIdx_length (n i : ℕ) (h : i < n) : (othersIdx n i).length = n - 1 := by
  induction n with
  | zero => exact absurd h (Nat.not_lt_zero i)
  | succ n ih =>
    unfold othersIdx at *
    rw [List.range_succ, List.filter_append, List.length_append]
    rcases Nat.lt_or_ge i n with hlt | hge
    · rw [ih hlt]
      have hne : n ≠ i := Nat.ne_of_gt hlt
      simp [List.filter_cons, hne]
      omega
    · have hi : i = n := Nat.le_antisymm (Nat.le_of_lt_succ h) hge
      subst hi
      have h2 : List.filter (fun j => decide (j ≠ i)) (List.range i) = List.range i := by
        rw [List.filter_eq_self]
        intro a ha
        simp [Nat.ne_of_lt (List.mem_range.mp ha)]
      rw [h2]
      simp

/-! ### The integrator -/

theorem integrate_m (b : body) (dt : ℝ) : (integrate b dt).m = b.m := rfl

theorem integrate_f (b : body) (dt : ℝ) : (integrate b dt).f = b.f := rfl

theorem integrate_g (b : body) (dt : ℝ) : (integrate b dt).g = b.g := rfl

theorem integrate_v (b : body) (dt : ℝ) :
    (integrate b dt).v = b.v + dt * b.f / b.m := rfl

theorem integrate_w (b : body) (dt : ℝ) :
    (integrate b dt).w = b.w + dt * b.g / b.m := rfl

theorem integrate_x (b : body) (dt : ℝ) :
    (integrate b dt).x = b.x + dt * (b.v + dt * b.f / b.m) := rfl

theorem integrate_y (b : body) (dt : ℝ) :
    (integrate b dt).y = b.y + dt * (b.w + dt * b.g / b.m) := rfl

/-! ### The simulation run: lengths and masses -/

theorem integratePhase_length (bs : List body) (d : ℤ) :
    (integratePhase bs d).length = bs.length := by
  simp [integratePhase]

theorem integratePhase_m (bs : List body) (d : ℤ) (i : ℕ) :
    ((integratePhase bs d).getD i default).m = (bs.getD i default).m := by
  rw [integratePhase, List.getD_eq_getElem?_getD, List.getElem?_map,
    List.getD_eq_getElem?_getD]
  cases bs[i]? <;> rfl

theorem forcePass_m (bs : List body) (i : ℕ) :
    ((forcePass bs).getD i default).m = (bs.getD i default).m :=
  congrArg Prod.fst (kin_forcePass bs i)

theorem run_length (bs : List body) (d : ℤ) (n : ℕ) :
    (run bs d n).length = bs.length := by
  induction n with
  | zero => rfl
  | succ n ih => rw [run, simStep, integratePhase_length, forcePass_length, ih]

theorem run_m (bs : List body) (d : ℤ) (n i : ℕ) :
    ((run bs d n).getD i default).m = (bs.getD i default).m := by
  induction n with
  | zero => rfl
  | succ n ih => rw [run, simStep, integratePhase_m, forcePass_m, ih]

/-! ### A single isolated body -/

theorem forcePass_singleton (c : body) : forcePass [c] = [resetForce c] := by
  show List.foldl forceStep [c] (List.range 1) = [resetForce c]
  rw [show List.range 1 = [0] from rfl, List.foldl_cons, List.foldl_nil]
  show ([c].set 0 (accumulate (resetForce c)
    ((othersIdx 1 0).map (fun j => [c].getD j default)))) = [resetForce c]
  rw [show othersIdx 1 0 = [] from rfl, List.map_nil, accumulate_nil]
  rfl

theorem simStep_singleton (c : body) (d : ℤ) :
    simStep [c] d =
      [{ c with x := c.x + (d : ℝ) * c.v, y := c.y + (d : ℝ) * c.w,
                f := 0, g := 0 }] := by
  rw [simStep, forcePass_singleton]
  show [integrate (resetForce c) (d : ℝ)] = _
  obtain ⟨m, x, y, v, w, f, g⟩ := c
  simp only [integrate, resetForce, List.cons.injEq, and_true, body.mk.injEq]
  norm_num

theorem run_singleton (b : body) (d : ℤ) (n : ℕ) (hn : 1 ≤ n) :
    run [b] d n =
      [{ b with x := b.x + (n : ℝ) * (d : ℝ) * b.v,
                y := b.y + (n : ℝ) * (d : ℝ) * b.w, f := 0, g := 0 }] := by
  induction n, hn using Nat.le_induction with
  | base =>
    rw [show run [b] d 1 = simStep [b] d from rfl, simStep_singleton]
    obtain ⟨m, x, y, v, w, f, g⟩ := b
    simp only [List.cons.injEq, and_true, body.mk.injEq]
    norm_num
  | succ n hn ih =>
    rw [run, ih, simStep_singleton]
    obtain ⟨m, x, y, v, w, f, g⟩ := b
    simp only [List.cons.injEq, body.mk.injEq, eq_self_iff_true, and_true, true_and]
    push_cast
    exact ⟨by ring, by ring⟩

/-! ### Claim theorems -/

/-- C3: for every body with nonzero mass `m`, current velocity `v`,
position `p` and accumulated force `f`, one `integrate` call with
timestep `dt` returns velocity `v' = v + dt·f/m` and position
`p' = p + dt·v'` componentwise: the position update uses the velocity
already advanced by this step's force, not the previous velocity. -/
theorem C3_integrator_update_order (b : body) (dt : ℝ) (hm : b.m ≠ 0) :
    (integrate b dt).v = b.v + dt * b.f / b.m ∧
    (integrate b dt).w = b.w + dt * b.g / b.m ∧
    (integrate b dt).x = b.x + dt * (integrate b dt).v ∧
    (integrate b dt).y = b.y + dt * (integrate b dt).w :=
  ⟨rfl, rfl, rfl, rfl⟩

/-- Witness for C3 at the concrete body `⟨2, 1, 1, 3, 4, 6, 8⟩` with
`dt = 1`: the new velocity components are `3 + 6/2 = 6` and `4 + 8/2 = 8`
and the position updates use them. -/
theorem C3_integrator_update_order_witness :
    (2 : ℝ) ≠ 0 ∧
    (integrate ⟨2, 1, 1, 3, 4, 6, 8⟩ 1).v = 3 + 1 * 6 / 2 := by
  have h2 : (body.mk 2 1 1 3 4 6 8).m ≠ 0 := by norm_num
  exact ⟨by norm_num, (C3_integrator_update_order ⟨2, 1, 1, 3, 4, 6, 8⟩ 1 h2).1⟩

/-- C5: for every population size `n`, one timestep performs exactly
`n·(n−1)` directional pairwise force evaluations — one `fsum` call for
each ordered pair `(i, j)` with `i ≠ j`; antisymmetry is not exploited. -/
theorem C5_pairwise_evaluation_count (n : ℕ) : forceEvalCount n = n * (n - 1) := by
  cases n with
  | zero => rfl
  | succ n =>
    unfold forceEvalCount
    rw [show (List.range (n + 1)).map (fun i => (othersIdx (n + 1) i).length)
          = (List.range (n + 1)).map (fun _ => n) from
        List.map_congr_left (fun i hi => othersIdx_length _ i (List.mem_range.mp hi)),
      List.map_const', List.sum_replicate, List.length_range, smul_eq_mul,
      Nat.add_sub_cancel]

/-- C10: one `fsum` call modifies only the target's force accumulator
(mass, position and velocity unchanged); one `integrate` call modifies
only velocity and position (mass and force unchanged); and every body's
mass is preserved by the whole run (which also preserves the population
size). -/
theorem C10_frame_conditions (b a : body) (dt : ℝ) (bs : List body)
    (d : ℤ) (n i : ℕ) :
    ((fsum b a).m = b.m ∧ (fsum b a).x = b.x ∧ (fsum b a).y = b.y ∧
      (fsum b a).v = b.v ∧ (fsum b a).w = b.w) ∧
    ((integrate b dt).m = b.m ∧ (integrate b dt).f = b.f ∧
      (integrate b dt).g = b.g) ∧
    (run bs d n).length = bs.length ∧
    ((run bs d n).getD i default).m = (bs.getD i default).m :=
  ⟨⟨rfl, rfl, rfl, rfl, rfl⟩, ⟨rfl, rfl, rfl⟩, run_length bs d n, run_m bs d n i⟩

/-- C4 counterexample: a single isolated body with initial velocity
`(1, 0)` at the origin, `dt = 1`: after one step of the run its
x-position is `1`, not its initial value `0` — the claim that the
position remains at its initial value for the entire run is false. -/
theorem C4_counterexample_position_drifts :
    ((run [⟨1, 0, 0, 1, 0, 0, 0⟩] 1 1).getD 0 default).x = 1 ∧
    (⟨1, 0, 0, 1, 0, 0, 0⟩ : body).x = 0 := by
  constructor
  · rw [show run [(⟨1, 0, 0, 1, 0, 0, 0⟩ : body)] 1 1
        = simStep [⟨1, 0, 0, 1, 0, 0, 0⟩] 1 from rfl, simStep_singleton]
    norm_num
  · rfl

/-- C4 (amended): for a population of size 1, at every timestep `n ≥ 1`
of the run the body's accumulated force is zero and its velocity remains
at its initial value; its position advances uniformly by `dt·v` per step
(so it equals its initial value only when the initial velocity is zero). -/
theorem C4_single_body_run (b : body) (d : ℤ) (n : ℕ) (hn : 1 ≤ n) :
    ((run [b] d n).getD 0 default).f = 0 ∧
    ((run [b] d n).getD 0 default).g = 0 ∧
    ((run [b] d n).getD 0 default).v = b.v ∧
    ((run [b] d n).getD 0 default).w = b.w ∧
    ((run [b] d n).getD 0 default).x = b.x + (n : ℝ) * (d : ℝ) * b.v ∧
    ((run [b] d n).getD 0 default).y = b.y + (n : ℝ) * (d : ℝ) * b.w := by
  rw [run_singleton b d n hn]
  exact ⟨rfl, rfl, rfl, rfl, rfl, rfl⟩

/-- Witness for C4 (amended) at the body `⟨1, 2, 3, 4, 5, 6, 7⟩`,
`dt = 2`, one step: force is cleared, velocity stays `(4, 5)` and the
position moves to `(2 + 8, 3 + 10)`. -/
theorem C4_single_body_run_witness :
    1 ≤ 1 ∧
    ((run [(⟨1, 2, 3, 4, 5, 6, 7⟩ : body)] 2 1).getD 0 default).v = 4 ∧
    ((run [(⟨1, 2, 3, 4, 5, 6, 7⟩ : body)] 2 1).getD 0 default).x = 2 + 8 := by
  have h := C4_single_body_run ⟨1, 2, 3, 4, 5, 6, 7⟩ 2 1 (le_refl 1)
  refine ⟨le_refl 1, h.2.2.1, ?_⟩
  rw [h.2.2.2.2.1]
  norm_num

/-! ### The pairwise force law -/

theorem sqrt_one_hundred : Real.sqrt 100 = 10 := by
  rw [show (100 : ℝ) = 10 ^ 2 by norm_num]
  exact Real.sqrt_sq (by norm_num)

/-- C2: for every ordered pair of bodies with positive masses and
positive Euclidean separation `r = bodyd`, the pairwise contribution
`fsum` adds to the target's accumulated force has magnitude
`C·m_i·m_j/r²` and points along the unit vector from the target toward
the other body. -/
theorem C2_pairwise_force_law (b a : body)
    (hb : 0 < b.m) (ha : 0 < a.m) (hr : 0 < bodyd b a) :
    (fsum b a).f = b.f + contribF b a ∧
    (fsum b a).g = b.g + contribG b a ∧
    Real.sqrt (contribF b a * contribF b a + contribG b a * contribG b a)
      = C * b.m * a.m / (bodyd b a * bodyd b a) ∧
    contribF b a
      = (C * b.m * a.m / (bodyd b a * bodyd b a)) * ((a.x - b.x) / bodyd b a) ∧
    contribG b a
      = (C * b.m * a.m / (bodyd b a * bodyd b a)) * ((a.y - b.y) / bodyd b a) := by
  have hC : (0 : ℝ) < C := by norm_num [C]
  have hrne : bodyd b a ≠ 0 := ne_of_gt hr
  have hs : bodyd b a * bodyd b a
      = (a.x - b.x) * (a.x - b.x) + (a.y - b.y) * (a.y - b.y) := by
    rw [bodyd]
    exact Real.mul_self_sqrt
      (add_nonneg (mul_self_nonneg _) (mul_self_nonneg _))
  have hfs : 0 < fscal b a := by
    rw [fscal]
    exact div_pos (mul_pos (mul_pos hC hb) ha) (mul_pos (mul_pos hr hr) hr)
  have hkey : contribF b a * contribF b a + contribG b a * contribG b a
      = (fscal b a * bodyd b a) * (fscal b a * bodyd b a) := by
    have h1 : contribF b a * contribF b a + contribG b a * contribG b a
        = fscal b a * fscal b a *
          ((a.x - b.x) * (a.x - b.x) + (a.y - b.y) * (a.y - b.y)) := by
      rw [contribF, contribG]; ring
    rw [h1, ← hs]; ring
  have hmag : Real.sqrt (contribF b a * contribF b a + contribG b a * contribG b a)
      = fscal b a * bodyd b a := by
    rw [hkey]
    exact Real.sqrt_mul_self (le_of_lt (mul_pos hfs hr))
  have hfr : fscal b a * bodyd b a = C * b.m * a.m / (bodyd b a * bodyd b a) := by
    rw [fscal]
    field_simp
    ring
  refine ⟨rfl, rfl, by rw [hmag, hfr], ?_, ?_⟩
  · rw [contribF, fscal]; field_simp
  · rw [contribG, fscal]; field_simp

/-- Witness for C2 at the two-body scenario `B0`, `B1` (masses 1,
separation 10): the added force has magnitude
`1.01·1·1/100 = 101/10000`. -/
theorem C2_pairwise_force_law_witness :
    0 < B0.m ∧ 0 < B1.m ∧ 0 < bodyd B0 B1 ∧
    Real.sqrt (contribF B0 B1 * contribF B0 B1 + contribG B0 B1 * contribG B0 B1)
      = C * B0.m * B1.m / (bodyd B0 B1 * bodyd B0 B1) := by
  have h1 : (0 : ℝ) < B0.m := by norm_num [B0]
  have h2 : (0 : ℝ) < B1.m := by norm_num [B1]
  have h3 : (0 : ℝ) < bodyd B0 B1 := by
    rw [bodyd]
    norm_num [B0, B1, sqrt_one_hundred]
  exact ⟨h1, h2, h3, (C2_pairwise_force_law B0 B1 h1 h2 h3).2.2.1⟩

/-! ### The concrete two-body scenario -/

theorem forcePass_pair (b0 b1 : body) :
    forcePass [b0, b1] =
      [fsum (resetForce b0) b1,
       fsum (resetForce b1) (fsum (resetForce b0) b1)] := rfl

theorem bodyd_B0_B1 : bodyd B0 B1 = 10 := by
  rw [bodyd]
  norm_num [B0, B1, sqrt_one_hundred]

theorem contribF_B0 : contribF (resetForce B0) B1 = 101 / 10000 := by
  rw [contribF, fscal, show bodyd (resetForce B0) B1 = 10 from bodyd_B0_B1]
  norm_num [C, B0, B1, resetForce]

theorem contribG_B0 : contribG (resetForce B0) B1 = 0 := by
  rw [contribG, show B1.y - (resetForce B0).y = 0 by norm_num [B0, B1, resetForce],
    mul_zero]

theorem fsum_step1 :
    fsum (resetForce B0) B1 = ⟨1, 0, 0, 0, 0, 101 / 10000, 0⟩ := by
  show ({ resetForce B0 with
      f := (resetForce B0).f + contribF (resetForce B0) B1,
      g := (resetForce B0).g + contribG (resetForce B0) B1 } : body) = _
  rw [contribF_B0, contribG_B0]
  norm_num [resetForce, B0, body.mk.injEq]

theorem fsum_step2 :
    fsum (resetForce B1) (⟨1, 0, 0, 0, 0, 101 / 10000, 0⟩ : body)
      = ⟨1, 10, 0, 0, 0, -(101 / 10000), 0⟩ := by
  have hb : bodyd (resetForce B1) (⟨1, 0, 0, 0, 0, 101 / 10000, 0⟩ : body) = 10 := by
    rw [bodyd]
    norm_num [B1, resetForce, sqrt_one_hundred]
  show ({ resetForce B1 with
      f := (resetForce B1).f
        + contribF (resetForce B1) (⟨1, 0, 0, 0, 0, 101 / 10000, 0⟩ : body),
      g := (resetForce B1).g
        + contribG (resetForce B1) (⟨1, 0, 0, 0, 0, 101 / 10000, 0⟩ : body) } : body) = _
  rw [contribF, contribG, fscal, hb]
  norm_num [C, B1, resetForce, body.mk.injEq]

theorem forcePass_B0_B1 :
    forcePass [B0, B1] =
      [⟨1, 0, 0, 0, 0, 101 / 10000, 0⟩,
       ⟨1, 10, 0, 0, 0, -(101 / 10000), 0⟩] := by
  rw [forcePass_pair, fsum_step1, fsum_step2]

theorem run_B0_B1_one_step :
    run [B0, B1] 1 1 =
      [⟨1, 101 / 10000, 0, 101 / 10000, 0, 101 / 10000, 0⟩,
       ⟨1, 10 - 101 / 10000, 0, -(101 / 10000), 0, -(101 / 10000), 0⟩] := by
  show simStep [B0, B1] 1 = _
  rw [simStep, forcePass_B0_B1, integratePhase]
  simp only [List.map_cons, List.map_nil, List.cons.injEq, and_true]
  norm_num [integrate, body.mk.injEq]

/-- C1 counterexample: in the two-body scenario (`m1 = m2 = 1`,
positions `(0,0)` and `(10,0)`, zero velocities, `G = 1.01`, `dt = 1`),
after one simulation step body 0's x-position is `0.0101`, not `0`:
the claim that its position is unchanged is false, because `integrate`
adds `dt` times the NEWLY updated velocity to the position. -/
theorem C1_counterexample_position_moves :
    ((run [B0, B1] 1 1).getD 0 default).x = 101 / 10000 ∧
    B0.x = 0 ∧ (101 / 10000 : ℝ) ≠ 0 := by
  rw [run_B0_B1_one_step]
  exact ⟨rfl, rfl, by norm_num⟩

/-- C1 (amended): in the two-body scenario the force on body 0 is
`(0.0101, 0)` — magnitude `1.01·1·1/100 = 0.0101` toward body 1 (+x) —
and body 1 gets the equal-and-opposite force `(−0.0101, 0)`; after one
step body 0's velocity is `(0.0101, 0)` and its position has ADVANCED to
`(0.0101, 0)` (not stayed at `(0,0)`: the position update applies the
newly computed velocity over `dt`); body 1 moves symmetrically to
velocity `(−0.0101, 0)` and position `(9.9899, 0)`. -/
theorem C1_two_body_scenario :
    ((forcePass [B0, B1]).getD 0 default).f = 101 / 10000 ∧
    ((forcePass [B0, B1]).getD 0 default).g = 0 ∧
    ((forcePass [B0, B1]).getD 1 default).f = -(101 / 10000) ∧
    ((forcePass [B0, B1]).getD 1 default).g = 0 ∧
    run [B0, B1] 1 1 =
      [⟨1, 101 / 10000, 0, 101 / 10000, 0, 101 / 10000, 0⟩,
       ⟨1, 10 - 101 / 10000, 0, -(101 / 10000), 0, -(101 / 10000), 0⟩] := by
  rw [forcePass_B0_B1, run_B0_B1_one_step]
  exact ⟨rfl, rfl, rfl, rfl, rfl⟩

/-- C6: at every timestep each body's force accumulator is reset to zero
before accumulation, so after the force pass body `i`'s force equals
exactly the sum of its `N−1` pairwise contributions of the current
timestep; the result is independent of the incoming force values (no
carry-over): any population agreeing on masses, positions and velocities
yields the same accumulated forces. -/
theorem C6_force_reset_and_sum (bs : List body) (i : ℕ) (hi : i < bs.length) :
    ((forcePass bs).getD i default).f =
      ((othersIdx bs.length i).map
        (fun j => contribF (bs.getD i default) (bs.getD j default))).sum ∧
    ((forcePass bs).getD i default).g =
      ((othersIdx bs.length i).map
        (fun j => contribG (bs.getD i default) (bs.getD j default))).sum ∧
    ∀ bs' : List body, bs'.length = bs.length →
      (∀ j, kin (bs'.getD j default) = kin (bs.getD j default)) →
      ((forcePass bs').getD i default).f = ((forcePass bs).getD i default).f ∧
      ((forcePass bs').getD i default).g = ((forcePass bs).getD i default).g := by
  refine ⟨forcePass_f bs i hi, forcePass_g bs i hi, ?_⟩
  intro bs' hlen hkin
  have hi' : i < bs'.length := by rw [hlen]; exact hi
  constructor
  · rw [forcePass_f bs i hi, forcePass_f bs' i hi', hlen]
    refine congrArg List.sum (List.map_congr_left ?_)
    intro j _
    exact contribF_congr (hkin i) (hkin j)
  · rw [forcePass_g bs i hi, forcePass_g bs' i hi', hlen]
    refine congrArg List.sum (List.map_congr_left ?_)
    intro j _
    exact contribG_congr (hkin i) (hkin j)

/-- Witness for C6 at the two-body scenario, body 0: its accumulated
force after the force pass equals its single pairwise contribution. -/
theorem C6_force_reset_and_sum_witness :
    0 < ([B0, B1] : List body).length ∧
    ((forcePass [B0, B1]).getD 0 default).f =
      ((othersIdx ([B0, B1] : List body).length 0).map
        (fun j => contribF (([B0, B1] : List body).getD 0 default)
          (([B0, B1] : List body).getD j default))).sum :=
  ⟨by norm_num, (C6_force_reset_and_sum [B0, B1] 0 (by norm_num)).1⟩

/-- C7 (evaluating the code at the failing input): for the coincident
pair `(Dcoin, Dcoin)` — two bodies at identical coordinates — the
separation `bodyd` computed by `fsum` is zero, hence the divisor
`bodyd³` of `fscal` is zero while its numerator `C·m·m` is not: the code
divides a nonzero numerator by zero (IEEE `double`: ±inf, then
`inf · 0 = NaN` in the force components).  No epsilon clamp or skip
policy exists in `fsum`. -/
theorem C7_coincident_pair_divides_by_zero :
    bodyd Dcoin Dcoin = 0 ∧
    bodyd Dcoin Dcoin * bodyd Dcoin Dcoin * bodyd Dcoin Dcoin = 0 ∧
    C * Dcoin.m * Dcoin.m ≠ 0 := by
  have h : bodyd Dcoin Dcoin = 0 := by
    rw [bodyd]
    norm_num [Dcoin]
  exact ⟨h, by rw [h]; ring, by norm_num [C, Dcoin]⟩

/-- C8 (evaluating the code at the failing input): invoking the program
as `./main foo`, `std::stoi` throws `invalid_argument`, nothing is
written to `input[1]`, and `num_bodies` is read from the uninitialised
slot — modelled here by the arbitrary garbage value 42 — not from the
documented default 10. -/
theorem C8_uninitialised_slot_on_parse_failure :
    input_verify_stoi ["./main", "foo"] [0, 42] = [0, 42] ∧
    num_bodies 2 (input_verify_stoi ["./main", "foo"] [0, 42]) = 42 ∧
    (42 : ℤ) ≠ 10 := by
  refine ⟨by decide, by decide, by decide⟩

/-! ### Decimal parsing: `stoi` truncates fractional arguments -/

theorem natFromDigits_foldl (ds : List Char) : ∀ a : ℕ,
    ds.foldl (fun acc c => 10 * acc + digitVal c) a
      = a * 10 ^ ds.length + natFromDigits ds := by
  induction ds with
  | nil => intro a; simp [natFromDigits]
  | cons c ds ih =>
    intro a
    rw [List.foldl_cons, ih]
    rw [show natFromDigits (c :: ds) = digitVal c * 10 ^ ds.length + natFromDigits ds
        from by rw [natFromDigits, List.foldl_cons, ih]; norm_num]
    rw [List.length_cons, pow_succ]
    ring

theorem natFromDigits_cons (c : Char) (ds : List Char) :
    natFromDigits (c :: ds) = digitVal c * 10 ^ ds.length + natFromDigits ds := by
  rw [natFromDigits, List.foldl_cons, natFromDigits_foldl]
  norm_num

theorem digitVal_le_nine {c : Char} (hc : c.isDigit = true) : digitVal c ≤ 9 := by
  simp only [Char.isDigit, Bool.and_eq_true, decide_eq_true_eq] at hc
  have h2 : c.val.toNat ≤ 57 := UInt32.toNat_le_of_le (by norm_num) hc.2
  simp only [digitVal, Char.toNat]
  omega

theorem natFromDigits_lt (ds : List Char) (h : ∀ c ∈ ds, c.isDigit = true) :
    natFromDigits ds < 10 ^ ds.length := by
  induction ds with
  | nil => simp [natFromDigits]
  | cons c ds ih =>
    have hc := digitVal_le_nine (h c (List.mem_cons_self c ds))
    have hds := ih (fun d hd => h d (List.mem_cons_of_mem c hd))
    rw [natFromDigits_cons, List.length_cons, pow_succ]
    calc digitVal c * 10 ^ ds.length + natFromDigits ds
        < digitVal c * 10 ^ ds.length + 10 ^ ds.length := by omega
      _ = (digitVal c + 1) * 10 ^ ds.length := by ring
      _ ≤ 10 * 10 ^ ds.length := Nat.mul_le_mul_right _ (by omega)
      _ = 10 ^ ds.length * 10 := by ring

theorem takeDigits_digits_dot (ds rest : List Char)
    (h : ∀ c ∈ ds, c.isDigit = true) :
    takeDigits (ds ++ '.' :: rest) = ds := by
  induction ds with
  | nil =>
    rw [List.nil_append, takeDigits, List.takeWhile_cons_of_neg (by decide)]
  | cons c ds ih =>
    rw [List.cons_append, takeDigits,
      List.takeWhile_cons_of_pos (h c (List.mem_cons_self c ds))]
    have := ih (fun d hd => h d (List.mem_cons_of_mem c hd))
    rw [takeDigits] at this
    rw [this]

theorem stoi_decimal (c : Char) (ds fs : List Char)
    (hc : c.isDigit = true) (hds : ∀ d ∈ ds, d.isDigit = true)
    (hrange : ¬ natFromDigits (c :: ds) > 2 ^ 31 - 1) :
    stoi (String.mk (c :: ds ++ '.' :: fs))
      = some ((natFromDigits (c :: ds) : ℤ), (c :: ds).length) := by
  have hcm : c ≠ '-' := by
    intro h; rw [h] at hc; exact absurd hc (by decide)
  have hcp : c ≠ '+' := by
    intro h; rw [h] at hc; exact absurd hc (by decide)
  have hall : ∀ d ∈ c :: ds, d.isDigit = true := by
    intro d hd
    rcases List.mem_cons.mp hd with rfl | h
    · exact hc
    · exact hds d h
  have htake : takeDigits (c :: (ds ++ '.' :: fs)) = c :: ds := by
    rw [show c :: (ds ++ '.' :: fs) = (c :: ds) ++ '.' :: fs from rfl]
    exact takeDigits_digits_dot (c :: ds) fs hall
  show (if c = '-' then stoiDigits (ds ++ '.' :: fs) true 1
        else if c = '+' then stoiDigits (ds ++ '.' :: fs) false 1
        else stoiDigits (c :: (ds ++ '.' :: fs)) false 0) = _
  rw [if_neg hcm, if_neg hcp]
  rw [stoiDigits]
  simp only [htake]
  rw [if_neg (List.cons_ne_nil c ds), if_neg (by simp), if_neg hrange]
  rw [Nat.zero_add]

theorem cppTruncInt_decimalValue (intDs fracDs : List Char)
    (hfrac : ∀ d ∈ fracDs, d.isDigit = true) :
    cppTruncInt (decimalValue intDs fracDs) = (natFromDigits intDs : ℤ) := by
  have h1 : (0 : ℚ) ≤ (natFromDigits fracDs : ℚ) / 10 ^ fracDs.length := by
    positivity
  have h2 : (natFromDigits fracDs : ℚ) / 10 ^ fracDs.length < 1 := by
    rw [div_lt_one (by positivity)]
    exact_mod_cast natFromDigits_lt fracDs hfrac
  rw [cppTruncInt, decimalValue, if_pos (by positivity), add_comm,
    Int.floor_add_nat, Int.floor_eq_zero_iff.mpr ⟨h1, h2⟩, zero_add]

/-- C9: the timestep the simulation loop consumes and passes to the
integrator is stored as a C++ `int` (`run` takes `delta_t : ℤ`,
converted to a real only at the `integrate` call); when no timestep
argument is supplied, the `double` default `1.0` is truncated on
assignment to the integer 1; and a fractional timestep argument of the
form `I.F` is parsed by `stoi` to exactly the integer part — the
truncation `cppTruncInt` of its rational value. -/
theorem C9_timestep_stored_as_int (argc : ℕ) (input : List ℤ)
    (hargc : argc ≤ 3) (c : Char) (ds fs : List Char)
    (hc : c.isDigit = true) (hds : ∀ d ∈ ds, d.isDigit = true)
    (hfs : ∀ d ∈ fs, d.isDigit = true)
    (hrange : ¬ natFromDigits (c :: ds) > 2 ^ 31 - 1) :
    delta_t argc input = 1 ∧
    cppTruncInt 1.0 = 1 ∧
    stoi (String.mk (c :: ds ++ '.' :: fs))
      = some ((natFromDigits (c :: ds) : ℤ), (c :: ds).length) ∧
    cppTruncInt (decimalValue (c :: ds) fs) = (natFromDigits (c :: ds) : ℤ) ∧
    ∀ bs : List body, run bs (delta_t argc input) 1
      = (forcePass bs).map (fun b => integrate b ((delta_t argc input : ℤ) : ℝ)) := by
  have h10 : cppTruncInt 1.0 = 1 := by
    rw [cppTruncInt, if_pos (by norm_num)]
    norm_num [Int.floor_one]
  refine ⟨?_, h10, stoi_decimal c ds fs hc hds hrange,
    cppTruncInt_decimalValue (c :: ds) fs hfs, fun bs => rfl⟩
  rw [delta_t, if_neg (by omega)]
  exact h10

/-- Witness for C9: the fractional argument `"2.7"` parses to the
integer 2 — the truncation of `27/10` — and the no-argument default is
the integer 1. -/
theorem C9_timestep_stored_as_int_witness :
    (1 : ℕ) ≤ 3 ∧
    delta_t 1 [] = 1 ∧
    stoi (String.mk ['2', '.', '7']) = some ((2 : ℤ), 1) ∧
    cppTruncInt (decimalValue ['2'] ['7']) = (2 : ℤ) := by
  have h := C9_timestep_stored_as_int 1 [] (by norm_num) '2' [] ['7']
    (by decide) (by simp) (by decide) (by decide)
  exact ⟨by norm_num, h.1, h.2.2.1, h.2.2.2.1⟩

end NBody
